import Mathlib

/-!
Shallow embedding of the room-lifecycle / message-relay core of
`src/server.js` (a socket.io card-game server).

Conventions of the embedding:
* A socket's connection identity (`socket.id`) is a `String`.
* The JS `Map` `gameRooms` is an association list `List (String × Room)`
  whose keys stay unique; `Map.get`/`Map.set`/`Map.delete`/`Map.forEach`
  become `mapGet`/`mapSet`/`mapDelete`/structural recursion.
* `socket.join(roomCode)` is recorded in a subscription list
  `subs : List (String × String)` of (socketId, roomCode) pairs; socket.io
  room membership is a set, so the add is idempotent.
* Opaque payloads (`gameState`, `action`, `data`) are modelled by `Nat`;
  the server never inspects them.
* Each handler is a pure function `ServerState → args → ServerState × List Emit`
  where `Emit` records the outbound `socket.emit` / `io.to(..).emit` /
  `socket.to(..).emit` calls in program order.
-/

/-- A player record, as built at `server.js:42` and `server.js:68`:
`{ id: socket.id, name: playerName, ready: false }`. -/
structure Player where
  id : String
  name : String
  ready : Bool
deriving Repr, DecidableEq

/-- A room record, as built at `server.js:40-45`:
`{ code, players, gameState: null, started: false }`. `gameState` is the
opaque payload (modelled `Option Nat`, `none` for JS `null`). -/
structure Room where
  code : String
  players : List Player
  gameState : Option Nat
  started : Bool
deriving Repr, DecidableEq

/-- The server's mutable state: the `gameRooms` map (`server.js:13`) as an
association list, plus the transport-level broadcast groups created by
`socket.join` (pairs of socket id and room code). -/
structure ServerState where
  gameRooms : List (String × Room)
  subs : List (String × String)
deriving Repr, DecidableEq

/-- Lookup `gameRooms.get(code)`: the first (in a JS `Map`, only) entry with the key. -/
def mapGet : List (String × Room) → String → Option Room
  | [], _ => none
  | (k', r) :: rest, k => if k' = k then some r else mapGet rest k

/-- Update `gameRooms.set(code, room)`: JS `Map.set` updates the entry in place
when the key is present (keeping its insertion position) and appends a new
entry otherwise. -/
def mapSet : List (String × Room) → String → Room → List (String × Room)
  | [], k, r => [(k, r)]
  | (k', r') :: rest, k, r =>
    if k' = k then (k, r) :: rest else (k', r') :: mapSet rest k r

/-- Subscription `socket.join(roomCode)`: socket.io room membership is a set,
so joining twice is idempotent. -/
def addSub (subs : List (String × String)) (sid rc : String) : List (String × String) :=
  if (sid, rc) ∈ subs then subs else subs ++ [(sid, rc)]

/-- Outbound messages of the server, as named in `server.js`. -/
inductive Msg where
  | roomCreated (roomCode playerId : String)
  | roomJoined (roomCode playerId : String)
  | error (reason : String)
  | playersUpdate (players : List Player)
  | gameStart (players : List Player)
  | gameStateChanged (gameState : Nat)
  | playerAction (playerId : String) (action data : Nat)
  | playerDisconnected (playerId : String)
deriving Repr, DecidableEq

/-- One outbound delivery instruction: `socket.emit` (unicast to one
connection), `io.to(rc).emit` (broadcast to every subscriber of `rc`,
sender included), or `socket.to(rc).emit` (broadcast to every subscriber
of `rc` except the sender). -/
inductive Emit where
  | unicast (target : String) (msg : Msg)
  | toRoom (roomCode : String) (msg : Msg)
  | toRoomExcept (roomCode sender : String) (msg : Msg)
deriving Repr, DecidableEq

/-- Transport delivery semantics: which connections receive an `Emit`,
given the current broadcast groups. -/
def delivers (subs : List (String × String)) : Emit → String → Prop
  | .unicast t _, s => s = t
  | .toRoom rc _, s => (s, rc) ∈ subs
  | .toRoomExcept rc x _, s => (s, rc) ∈ subs ∧ s ≠ x

/-- Handler `createRoom` (`server.js:38-50`). The room code is the value
returned by the generator, passed here as an argument so the state machine
ranges over every possible generator output. -/
def createRoom (st : ServerState) (sid name rc : String) : ServerState × List Emit :=
  let room : Room :=
    { code := rc
      players := [{ id := sid, name := name, ready := false }]
      gameState := none
      started := false }
  ({ gameRooms := mapSet st.gameRooms rc room
     subs := addSub st.subs sid rc },
   [.unicast sid (.roomCreated rc sid)])

/-- Handler `joinRoom` (`server.js:53-75`). -/
def joinRoom (st : ServerState) (sid rc name : String) : ServerState × List Emit :=
  match mapGet st.gameRooms rc with
  | none => (st, [.unicast sid (.error "Room not found")])
  | some room =>
    if room.started then
      (st, [.unicast sid (.error "Game already started")])
    else if 5 ≤ room.players.length then
      (st, [.unicast sid (.error "Room is full")])
    else
      let ps := room.players ++ [{ id := sid, name := name, ready := false }]
      let room' : Room := { room with players := ps }
      ({ gameRooms := mapSet st.gameRooms rc room'
         subs := addSub st.subs sid rc },
       [.unicast sid (.roomJoined rc sid), .toRoom rc (.playersUpdate ps)])

/-- Model of `room.players.find(p => p.id === socket.id)` followed by
`player.ready = true` (`server.js:82-84`): sets the ready flag of the
first player whose id matches, leaving every other entry unchanged. -/
def setReadyFirst : List Player → String → List Player
  | [], _ => []
  | p :: ps, sid =>
    if p.id = sid then { p with ready := true } :: ps
    else p :: setReadyFirst ps sid

/-- Handler `playerReady` (`server.js:78-93`). Note the start condition at
`server.js:88` is re-checked on every ready message, without consulting
`room.started`. -/
def playerReady (st : ServerState) (sid rc : String) : ServerState × List Emit :=
  match mapGet st.gameRooms rc with
  | none => (st, [])
  | some room =>
    if room.players.any (fun p => p.id = sid) then
      let ps := setReadyFirst room.players sid
      if 2 ≤ ps.length ∧ ps.all (fun p => p.ready) then
        let room' : Room := { room with players := ps, started := true }
        ({ st with gameRooms := mapSet st.gameRooms rc room' },
         [.toRoom rc (.playersUpdate ps), .toRoom rc (.gameStart ps)])
      else
        let room' : Room := { room with players := ps }
        ({ st with gameRooms := mapSet st.gameRooms rc room' },
         [.toRoom rc (.playersUpdate ps)])
    else (st, [])

/-- Handler `gameStateUpdate` (`server.js:96-103`): last-write-wins
overwrite of `room.gameState`, relay to everyone but the sender. -/
def gameStateUpdate (st : ServerState) (sid rc : String) (gs : Nat) :
    ServerState × List Emit :=
  match mapGet st.gameRooms rc with
  | none => (st, [])
  | some room =>
    let room' : Room := { room with gameState := some gs }
    ({ st with gameRooms := mapSet st.gameRooms rc room' },
     [.toRoomExcept rc sid (.gameStateChanged gs)])

/-- Handler `playerAction` (`server.js:106-108`): stateless relay, no room
lookup at all. -/
def playerAction (st : ServerState) (sid rc : String) (action data : Nat) :
    ServerState × List Emit :=
  (st, [.toRoom rc (.playerAction sid action data)])

/-- Per-room part of the disconnect handler (`server.js:116-127`):
`findIndex` + `splice(i, 1)`, deleting the room when it empties, otherwise
broadcasting the update and the disconnect notice. -/
def disconnectRoomOne (sid rc : String) (room : Room) : Option Room × List Emit :=
  match room.players.findIdx? (fun p => p.id = sid) with
  | none => (some room, [])
  | some i =>
    let ps := room.players.eraseIdx i
    if ps.length = 0 then (none, [])
    else (some ({ room with players := ps }),
          [.toRoom rc (.playersUpdate ps), .toRoom rc (.playerDisconnected sid)])

/-- Iteration `gameRooms.forEach` of the disconnect handler (`server.js:115-128`),
visiting rooms in map insertion order. -/
def disconnectRooms (sid : String) :
    List (String × Room) → List (String × Room) × List Emit
  | [] => ([], [])
  | (rc, room) :: rest =>
    let head := disconnectRoomOne sid rc room
    let tail := disconnectRooms sid rest
    (match head.1 with
     | none => tail.1
     | some r => (rc, r) :: tail.1,
     head.2 ++ tail.2)

/-- Handler `disconnect` (`server.js:111-129`). It only touches the
`gameRooms` registry; transport-level group membership of the dead socket
is irrelevant to it. -/
def disconnect (st : ServerState) (sid : String) : ServerState × List Emit :=
  let r := disconnectRooms sid st.gameRooms
  ({ st with gameRooms := r.1 }, r.2)

/-- Inbound transport events of the core (connection events carrying a
sender id plus the message payload). `createRoom` carries the generated
room code as an argument, so reachability quantifies over every generator
output. -/
inductive Event where
  | createRoom (sid name rc : String)
  | joinRoom (sid rc name : String)
  | playerReady (sid rc : String)
  | gameStateUpdate (sid rc : String) (gs : Nat)
  | playerAction (sid rc : String) (action data : Nat)
  | disconnect (sid : String)
deriving Repr, DecidableEq

/-- Dispatch of one inbound event, run to completion (§5 of the spec). -/
def step (st : ServerState) : Event → ServerState × List Emit
  | .createRoom sid name rc => createRoom st sid name rc
  | .joinRoom sid rc name => joinRoom st sid rc name
  | .playerReady sid rc => playerReady st sid rc
  | .gameStateUpdate sid rc gs => gameStateUpdate st sid rc gs
  | .playerAction sid rc a d => playerAction st sid rc a d
  | .disconnect sid => disconnect st sid

/-- Server state at process start: no rooms, no subscriptions. -/
def initState : ServerState := { gameRooms := [], subs := [] }

/-- States reachable from process start by any event sequence. -/
inductive Reachable : ServerState → Prop
  | init : Reachable initState
  | next (st : ServerState) (e : Event) : Reachable st → Reachable (step st e).1

/-- Run a whole trace of events from a state, accumulating emissions in
order. -/
def runTrace (st : ServerState) : List Event → ServerState × List Emit
  | [] => (st, [])
  | e :: es =>
    let r := step st e
    let rest := runTrace r.1 es
    (rest.1, r.2 ++ rest.2)

/-- Digit characters of JS `Number.prototype.toString(36)`. -/
def base36Chars : List Char := "0123456789abcdefghijklmnopqrstuvwxyz".toList

/-- Digit character for a value below 36 (out-of-range indices cannot arise
for fractions below one). -/
def base36Digit (n : Nat) : Char := base36Chars.getD n '0'

/-- Base-36 fractional digits of `v / 2^52`, as emitted by
`Number.prototype.toString(36)` for a double in `[0, 1)`: repeatedly
multiply the fraction by 36 and take the integer part, stopping when the
fraction is exhausted or the engine's output bound (well above the 8
characters `substring(2, 8)` can see) is reached. `Math.random()` in the
reference engine returns `k / 2^52` for an integer `k < 2^52`, so the
double is represented exactly by its numerator `v`. -/
def jsFracDigits : Nat → Nat → List Char
  | 0, _ => []
  | fuel + 1, v =>
    if v = 0 then []
    else base36Digit (v * 36 / 2 ^ 52) :: jsFracDigits fuel (v * 36 % 2 ^ 52)

/-- Character list of `(k / 2^52).toString(36)`: `"0"` for zero, otherwise
`"0."` followed by the fractional digits (all characters are ASCII, so JS
string indices coincide with list indices). -/
def jsToString36 (k : Nat) : List Char :=
  if k = 0 then ['0'] else '0' :: '.' :: jsFracDigits 20 k

/-- Model of `generateRoomCode` (`server.js:29-31`):
`Math.random().toString(36).substring(2, 8).toUpperCase()`, with the
random double represented by its numerator `k` over `2^52`. -/
def generateRoomCode (k : Nat) : String :=
  String.mk ((((jsToString36 k).drop 2).take 6).map Char.toUpper)

/-- Upper-case alphanumeric alphabet the spec prescribes for room codes. -/
def upperAlphanum : List Char := "0123456789ABCDEFGHIJKLMNOPQRSTUVWXYZ".toList

/-- Every room in the registry holds at most 5 players. -/
def roomsBounded (m : List (String × Room)) : Prop :=
  ∀ pr ∈ m, pr.2.players.length ≤ 5

/-- Room codes are unique among live rooms (the JS `Map` guarantees this
structurally; the association list carries it as an invariant). -/
def keysNodup (m : List (String × Room)) : Prop := (m.map Prod.fst).Nodup

theorem mapGet_mapSet_self (m : List (String × Room)) (k : String) (r : Room) :
    mapGet (mapSet m k r) k = some r := by
  induction m with
  | nil => simp [mapGet, mapSet]
  | cons hd tl ih =>
    obtain ⟨k', r'⟩ := hd
    by_cases h : k' = k
    · simp [mapGet, mapSet, h]
    · simp [mapGet, mapSet, h, ih]

theorem mapGet_mapSet_ne (m : List (String × Room)) (k k' : String) (r : Room)
    (h : k' ≠ k) : mapGet (mapSet m k r) k' = mapGet m k' := by
  induction m with
  | nil => simp [mapGet, mapSet, Ne.symm h]
  | cons hd tl ih =>
    obtain ⟨ka, ra⟩ := hd
    by_cases hk : ka = k
    · subst hk
      simp [mapGet, mapSet, Ne.symm h]
    · by_cases hk' : ka = k'
      · subst hk'
        simp [mapGet, mapSet, hk]
      · simp [mapGet, mapSet, hk, hk', ih]

theorem mapGet_mem (m : List (String × Room)) (k : String) (r : Room)
    (h : mapGet m k = some r) : (k, r) ∈ m := by
  induction m with
  | nil => simp [mapGet] at h
  | cons hd tl ih =>
    obtain ⟨ka, ra⟩ := hd
    by_cases hk : ka = k
    · subst hk
      simp [mapGet] at h
      simp [h]
    · simp [mapGet, hk] at h
      simp [ih h]

theorem mem_mapSet (m : List (String × Room)) (k : String) (r : Room) (pr : String × Room)
    (h : pr ∈ mapSet m k r) : pr ∈ m ∨ pr = (k, r) := by
  induction m with
  | nil => simp [mapSet] at h; simp [h]
  | cons hd tl ih =>
    obtain ⟨ka, ra⟩ := hd
    by_cases hk : ka = k
    · simp [mapSet, hk] at h
      rcases h with h | h
      · right; simp [h]
      · left; simp [h]
    · simp [mapSet, hk] at h
      rcases h with h | h
      · left; simp [h]
      · rcases ih h with h2 | h2
        · left; simp [h2]
        · right; exact h2

theorem mem_addSub_self (subs : List (String × String)) (sid rc : String) :
    (sid, rc) ∈ addSub subs sid rc := by
  unfold addSub
  split
  · assumption
  · simp

theorem setReadyFirst_getElem? (ps : List Player) (sid : String) (j : Nat) :
    (setReadyFirst ps sid)[j]? =
      if ps.findIdx? (fun p => p.id = sid) = some j then
        (ps[j]?).map (fun p => { p with ready := true })
      else ps[j]? := by
  induction ps generalizing j with
  | nil => simp [setReadyFirst]
  | cons p ps ih =>
    by_cases h : p.id = sid
    · cases j with
      | zero => simp [setReadyFirst, h, List.findIdx?_cons]
      | succ j => simp [setReadyFirst, h, List.findIdx?_cons]
    · cases j with
      | zero => simp [setReadyFirst, h, List.findIdx?_cons]
      | succ j =>
        have hidx : ((p :: ps).findIdx? (fun q => q.id = sid) = some (j + 1)) ↔
            (ps.findIdx? (fun q => q.id = sid) = some j) := by
          simp [List.findIdx?_cons, h]
        simp only [setReadyFirst, if_neg h, List.getElem?_cons_succ]
        rw [ih j]
        by_cases hj : ps.findIdx? (fun q => q.id = sid) = some j
        · rw [if_pos hj, if_pos (hidx.mpr hj)]
        · rw [if_neg hj, if_neg (fun hc => hj (hidx.mp hc))]

theorem setReadyFirst_length (ps : List Player) (sid : String) :
    (setReadyFirst ps sid).length = ps.length := by
  induction ps with
  | nil => rfl
  | cons p ps ih =>
    unfold setReadyFirst
    split
    · simp
    · simp [ih]

theorem length_eraseIdx_le (l : List Player) (i : Nat) :
    (l.eraseIdx i).length ≤ l.length := by
  induction l generalizing i with
  | nil => simp [List.eraseIdx]
  | cons a l ih =>
    cases i with
    | zero => simp [List.eraseIdx]
    | succ i =>
      simp only [List.eraseIdx, List.length_cons]
      exact Nat.succ_le_succ (ih i)

theorem player_set_ready_eta (p : Player) (h : p.ready = true) :
    ({ p with ready := true } : Player) = p := by
  cases p
  simp_all

theorem setReadyFirst_preserves_true (ps : List Player) (sid : String) (j : Nat) (p : Player)
    (hj : ps[j]? = some p) (hr : p.ready = true) :
    (setReadyFirst ps sid)[j]? = some p := by
  rw [setReadyFirst_getElem?]
  split
  · rw [hj]
    simp [player_set_ready_eta p hr]
  · exact hj

theorem disconnectRoomOne_players (sid rc : String) (room r : Room)
    (h : (disconnectRoomOne sid rc room).1 = some r) :
    r.players = room.players ∨ ∃ i, r.players = room.players.eraseIdx i := by
  unfold disconnectRoomOne at h
  cases hf : room.players.findIdx? (fun p => p.id = sid) with
  | none =>
    rw [hf] at h
    simp at h
    rw [← h]
    exact Or.inl rfl
  | some i =>
    rw [hf] at h
    simp only at h
    split at h
    · simp at h
    · simp at h
      rw [← h]
      exact Or.inr ⟨i, rfl⟩

theorem disconnectRooms_mem (sid : String) (m : List (String × Room)) :
    ∀ pr ∈ (disconnectRooms sid m).1,
      ∃ room0, (pr.1, room0) ∈ m ∧ (disconnectRoomOne sid pr.1 room0).1 = some pr.2 := by
  induction m with
  | nil => simp [disconnectRooms]
  | cons hd tl ih =>
    obtain ⟨rc, room⟩ := hd
    intro pr hpr
    unfold disconnectRooms at hpr
    simp only at hpr
    cases hh : (disconnectRoomOne sid rc room).1 with
    | none =>
      rw [hh] at hpr
      rcases ih pr hpr with ⟨room0, hm, he⟩
      exact ⟨room0, List.mem_cons_of_mem _ hm, he⟩
    | some r =>
      rw [hh] at hpr
      rcases List.mem_cons.mp hpr with h | h
      · subst h
        exact ⟨room, List.mem_cons_self _ _, by simpa using hh⟩
      · rcases ih pr h with ⟨room0, hm, he⟩
        exact ⟨room0, List.mem_cons_of_mem _ hm, he⟩

theorem step_bounded (st : ServerState) (e : Event)
    (h : roomsBounded st.gameRooms) : roomsBounded (step st e).1.gameRooms := by
  cases e with
  | createRoom sid name rc =>
    intro pr hpr
    rcases mem_mapSet _ _ _ _ hpr with h1 | h1
    · exact h pr h1
    · subst h1
      simp
  | joinRoom sid rc name =>
    cases hg : mapGet st.gameRooms rc with
    | none => simpa [step, joinRoom, hg] using h
    | some room =>
      by_cases hs : room.started
      · simpa [step, joinRoom, hg, hs] using h
      · by_cases hl : 5 ≤ room.players.length
        · simpa [step, joinRoom, hg, hs, hl] using h
        · intro pr hpr
          rw [show (step st (.joinRoom sid rc name)).1.gameRooms =
              mapSet st.gameRooms rc
                { room with players :=
                    room.players ++ [{ id := sid, name := name, ready := false }] } by
            simp [step, joinRoom, hg, hs, hl]] at hpr
          rcases mem_mapSet _ _ _ _ hpr with h1 | h1
          · exact h pr h1
          · rw [h1]
            simp only [List.length_append, List.length_cons, List.length_nil]
            have := h (rc, room) (mapGet_mem _ _ _ hg)
            omega
  | playerReady sid rc =>
    cases hg : mapGet st.gameRooms rc with
    | none => simpa [step, playerReady, hg] using h
    | some room =>
      by_cases hyes : room.players.any (fun p => p.id = sid)
      · by_cases hc : 2 ≤ (setReadyFirst room.players sid).length ∧
            (setReadyFirst room.players sid).all (fun p => p.ready) = true
        · intro pr hpr
          rw [show (step st (.playerReady sid rc)).1.gameRooms =
              mapSet st.gameRooms rc
                { room with players := setReadyFirst room.players sid, started := true } by
            simp only [step, playerReady, hg, hyes, if_true, if_pos hc]] at hpr
          rcases mem_mapSet _ _ _ _ hpr with h1 | h1
          · exact h pr h1
          · rw [h1]
            simp only [setReadyFirst_length]
            exact h (rc, room) (mapGet_mem _ _ _ hg)
        · intro pr hpr
          rw [show (step st (.playerReady sid rc)).1.gameRooms =
              mapSet st.gameRooms rc
                { room with players := setReadyFirst room.players sid } by
            simp only [step, playerReady, hg, hyes, if_true, if_neg hc]] at hpr
          rcases mem_mapSet _ _ _ _ hpr with h1 | h1
          · exact h pr h1
          · rw [h1]
            simp only [setReadyFirst_length]
            exact h (rc, room) (mapGet_mem _ _ _ hg)
      · simpa [step, playerReady, hg, hyes] using h
  | gameStateUpdate sid rc gs =>
    cases hg : mapGet st.gameRooms rc with
    | none => simpa [step, gameStateUpdate, hg] using h
    | some room =>
      intro pr hpr
      rw [show (step st (.gameStateUpdate sid rc gs)).1.gameRooms =
          mapSet st.gameRooms rc { room with gameState := some gs } by
        simp [step, gameStateUpdate, hg]] at hpr
      rcases mem_mapSet _ _ _ _ hpr with h1 | h1
      · exact h pr h1
      · rw [h1]
        exact h (rc, room) (mapGet_mem _ _ _ hg)
  | playerAction sid rc a d => exact h
  | disconnect sid =>
    intro pr hpr
    rcases disconnectRooms_mem sid st.gameRooms pr hpr with ⟨room0, hm, he⟩
    rcases disconnectRoomOne_players _ _ _ _ he with h1 | ⟨i, h1⟩
    · rw [h1]
      exact h (pr.1, room0) hm
    · rw [h1]
      exact le_trans (length_eraseIdx_le _ _) (h (pr.1, room0) hm)

theorem mapGet_eq_none_iff (m : List (String × Room)) (rc : String) :
    mapGet m rc = none ↔ rc ∉ m.map Prod.fst := by
  induction m with
  | nil => simp [mapGet]
  | cons hd tl ih =>
    obtain ⟨k, r⟩ := hd
    by_cases hk : k = rc
    · subst hk
      simp [mapGet]
    · simp [mapGet, hk, ih, Ne.symm hk]

theorem keys_mapSet (m : List (String × Room)) (k : String) (r : Room) :
    (mapSet m k r).map Prod.fst =
      if k ∈ m.map Prod.fst then m.map Prod.fst else m.map Prod.fst ++ [k] := by
  induction m with
  | nil => simp [mapSet]
  | cons hd tl ih =>
    obtain ⟨k', r'⟩ := hd
    by_cases hk : k' = k
    · subst hk
      simp [mapSet]
    · simp only [mapSet, if_neg hk, List.map_cons, ih]
      by_cases hm : k ∈ tl.map Prod.fst
      · simp [hm, Ne.symm hk]
      · simp [hm, Ne.symm hk]

theorem keysNodup_mapSet (m : List (String × Room)) (k : String) (r : Room)
    (h : keysNodup m) : keysNodup (mapSet m k r) := by
  unfold keysNodup at h ⊢
  rw [keys_mapSet]
  by_cases hm : k ∈ m.map Prod.fst
  · simpa [hm] using h
  · rw [if_neg hm]
    simp [List.nodup_append, h, hm]

theorem keys_disconnectRooms_sublist (sid : String) (m : List (String × Room)) :
    ((disconnectRooms sid m).1.map Prod.fst).Sublist (m.map Prod.fst) := by
  induction m with
  | nil => simp [disconnectRooms]
  | cons hd tl ih =>
    obtain ⟨rc, room⟩ := hd
    show ((match (disconnectRoomOne sid rc room).1 with
        | none => (disconnectRooms sid tl).1
        | some r => (rc, r) :: (disconnectRooms sid tl).1).map Prod.fst).Sublist
      (rc :: tl.map Prod.fst)
    cases (disconnectRoomOne sid rc room).1 with
    | none => exact List.Sublist.cons _ ih
    | some r => exact List.Sublist.cons₂ _ ih

theorem step_gameRooms_cases (st : ServerState) (e : Event) :
    (step st e).1.gameRooms = st.gameRooms ∨
    (∃ k r, (step st e).1.gameRooms = mapSet st.gameRooms k r) ∨
    (∃ sid, (step st e).1.gameRooms = (disconnectRooms sid st.gameRooms).1) := by
  cases e with
  | createRoom sid name rc =>
    exact Or.inr (Or.inl ⟨rc, _, rfl⟩)
  | joinRoom sid rc name =>
    cases hg : mapGet st.gameRooms rc with
    | none => simp [step, joinRoom, hg]
    | some room =>
      by_cases hs : room.started
      · simp [step, joinRoom, hg, hs]
      · by_cases hl : 5 ≤ room.players.length
        · simp [step, joinRoom, hg, hs, hl]
        · refine Or.inr (Or.inl ⟨rc,
            { room with players := room.players ++ [{ id := sid, name := name, ready := false }] }, ?_⟩)
          simp [step, joinRoom, hg, hs, hl]
  | playerReady sid rc =>
    cases hg : mapGet st.gameRooms rc with
    | none => simp [step, playerReady, hg]
    | some room =>
      by_cases hyes : room.players.any (fun p => p.id = sid)
      · by_cases hc : 2 ≤ (setReadyFirst room.players sid).length ∧
            (setReadyFirst room.players sid).all (fun p => p.ready) = true
        · refine Or.inr (Or.inl ⟨rc,
            { room with players := setReadyFirst room.players sid, started := true }, ?_⟩)
          simp only [step, playerReady, hg, hyes, if_true, if_pos hc]
        · refine Or.inr (Or.inl ⟨rc,
            { room with players := setReadyFirst room.players sid }, ?_⟩)
          simp only [step, playerReady, hg, hyes, if_true, if_neg hc]
      · simp [step, playerReady, hg, hyes]
  | gameStateUpdate sid rc gs =>
    cases hg : mapGet st.gameRooms rc with
    | none => simp [step, gameStateUpdate, hg]
    | some room =>
      refine Or.inr (Or.inl ⟨rc, { room with gameState := some gs }, ?_⟩)
      simp [step, gameStateUpdate, hg]
  | playerAction sid rc a d => exact Or.inl rfl
  | disconnect sid => exact Or.inr (Or.inr ⟨sid, rfl⟩)

theorem keysNodup_step (st : ServerState) (e : Event)
    (h : keysNodup st.gameRooms) : keysNodup (step st e).1.gameRooms := by
  rcases step_gameRooms_cases st e with hc | ⟨k, r, hc⟩ | ⟨sid, hc⟩
  · rw [hc]; exact h
  · rw [hc]; exact keysNodup_mapSet _ _ _ h
  · rw [hc]
    exact (keys_disconnectRooms_sublist sid st.gameRooms).nodup h

theorem reachable_keysNodup (st : ServerState) (h : Reachable st) :
    keysNodup st.gameRooms := by
  induction h with
  | init => simp [keysNodup, initState]
  | next st e _ ih => exact keysNodup_step st e ih

theorem disconnectRooms_cons (sid rc : String) (room : Room) (rest : List (String × Room)) :
    disconnectRooms sid ((rc, room) :: rest) =
      ((match (disconnectRoomOne sid rc room).1 with
        | none => (disconnectRooms sid rest).1
        | some r => (rc, r) :: (disconnectRooms sid rest).1),
       (disconnectRoomOne sid rc room).2 ++ (disconnectRooms sid rest).2) := rfl

theorem disconnectRoomOne_no_match (sid rc : String) (room : Room)
    (h : room.players.findIdx? (fun p => p.id = sid) = none) :
    disconnectRoomOne sid rc room = (some room, []) := by
  unfold disconnectRoomOne
  rw [h]

theorem disconnectRoomOne_last (sid rc : String) (room : Room) (i : Nat)
    (h : room.players.findIdx? (fun p => p.id = sid) = some i)
    (he : room.players.eraseIdx i = []) :
    disconnectRoomOne sid rc room = (none, []) := by
  unfold disconnectRoomOne
  rw [h]
  simp [he]

theorem disconnectRoomOne_removes (sid rc : String) (room : Room) (i : Nat)
    (h : room.players.findIdx? (fun p => p.id = sid) = some i)
    (he : room.players.eraseIdx i ≠ []) :
    disconnectRoomOne sid rc room =
      (some { room with players := room.players.eraseIdx i },
       [.toRoom rc (.playersUpdate (room.players.eraseIdx i)),
        .toRoom rc (.playerDisconnected sid)]) := by
  unfold disconnectRoomOne
  rw [h]
  simp [he]

theorem mapGet_disconnectRooms_none (sid : String) (m : List (String × Room)) (rc : String)
    (h : mapGet m rc = none) :
    mapGet (disconnectRooms sid m).1 rc = none := by
  rw [mapGet_eq_none_iff] at h ⊢
  intro hc
  exact h ((keys_disconnectRooms_sublist sid m).mem hc)

theorem mapGet_disconnectRooms (sid : String) (m : List (String × Room))
    (hnd : keysNodup m) (rc : String) (room : Room)
    (h : mapGet m rc = some room) :
    mapGet (disconnectRooms sid m).1 rc = (disconnectRoomOne sid rc room).1 := by
  induction m with
  | nil => simp [mapGet] at h
  | cons hd tl ih =>
    obtain ⟨k, r0⟩ := hd
    by_cases hk : k = rc
    · subst hk
      have hroom : r0 = room := by simpa [mapGet] using h
      subst hroom
      have hknot : k ∉ tl.map Prod.fst := by
        have := hnd
        unfold keysNodup at this
        simp only [List.map_cons, List.nodup_cons] at this
        exact this.1
      have htl : mapGet (disconnectRooms sid tl).1 k = none :=
        mapGet_disconnectRooms_none sid tl k ((mapGet_eq_none_iff tl k).mpr hknot)
      rw [disconnectRooms_cons]
      cases hh : (disconnectRoomOne sid k r0).1 with
      | none => simpa using htl
      | some r => simp [mapGet]
    · have htl : mapGet tl rc = some room := by
        simpa [mapGet, hk] using h
      have hndtl : keysNodup tl := by
        have := hnd
        unfold keysNodup at this
        simp only [List.map_cons, List.nodup_cons] at this
        exact this.2
      rw [disconnectRooms_cons]
      cases hh : (disconnectRoomOne sid k r0).1 with
      | none => simpa using ih hndtl htl
      | some r => simpa [mapGet, hk] using ih hndtl htl

theorem disconnectRooms_emits (sid : String) (m : List (String × Room)) (rc : String)
    (room : Room) (h : mapGet m rc = some room) :
    ∀ e ∈ (disconnectRoomOne sid rc room).2, e ∈ (disconnectRooms sid m).2 := by
  induction m with
  | nil => simp [mapGet] at h
  | cons hd tl ih =>
    obtain ⟨k, r0⟩ := hd
    intro e he
    rw [disconnectRooms_cons]
    by_cases hk : k = rc
    · subst hk
      have hroom : r0 = room := by simpa [mapGet] using h
      subst hroom
      exact List.mem_append_left _ he
    · have htl : mapGet tl rc = some room := by simpa [mapGet, hk] using h
      exact List.mem_append_right _ (ih htl e he)

theorem disconnectRooms_noop (sid : String) (m : List (String × Room))
    (h : ∀ pr ∈ m, pr.2.players.findIdx? (fun p => p.id = sid) = none) :
    disconnectRooms sid m = (m, []) := by
  induction m with
  | nil => rfl
  | cons hd tl ih =>
    obtain ⟨k, r0⟩ := hd
    rw [disconnectRooms_cons]
    rw [disconnectRoomOne_no_match sid k r0 (h (k, r0) (List.mem_cons_self _ _))]
    rw [ih (fun pr hpr => h pr (List.mem_cons_of_mem _ hpr))]
    rfl

theorem base36Digit_mem (n : Nat) : base36Digit n ∈ base36Chars := by
  unfold base36Digit
  by_cases h : n < base36Chars.length
  · rw [List.getD_eq_getElem _ _ h]
    exact List.getElem_mem ..
  · rw [List.getD_eq_default _ _ (Nat.le_of_not_lt h)]
    decide

theorem jsFracDigits_mem (fuel v : Nat) : ∀ c ∈ jsFracDigits fuel v, c ∈ base36Chars := by
  induction fuel generalizing v with
  | zero => simp [jsFracDigits]
  | succ fuel ih =>
    intro c hc
    unfold jsFracDigits at hc
    split at hc
    · simp at hc
    · rcases List.mem_cons.mp hc with h | h
      · rw [h]; exact base36Digit_mem _
      · exact ih _ c h

theorem toUpper_base36_mem : ∀ c ∈ base36Chars, c.toUpper ∈ upperAlphanum := by decide

/-- C2: `joinRoom` fails with a single unicast error message to the requester
and leaves the whole server state unchanged in exactly three cases, checked in
this order: unknown room code ("Room not found"); a started room, regardless
of remaining capacity ("Game already started"); a room with 5 or more players
("Room is full"). When all three checks pass, no error is emitted. -/
theorem joinRoom_error_cases (st : ServerState) (sid rc name : String) :
    (mapGet st.gameRooms rc = none →
      joinRoom st sid rc name = (st, [.unicast sid (.error "Room not found")])) ∧
    (∀ room, mapGet st.gameRooms rc = some room → room.started = true →
      joinRoom st sid rc name = (st, [.unicast sid (.error "Game already started")])) ∧
    (∀ room, mapGet st.gameRooms rc = some room → room.started = false →
      5 ≤ room.players.length →
      joinRoom st sid rc name = (st, [.unicast sid (.error "Room is full")])) ∧
    (∀ room, mapGet st.gameRooms rc = some room → room.started = false →
      room.players.length < 5 →
      ∀ reason, Emit.unicast sid (.error reason) ∉ (joinRoom st sid rc name).2) := by
  refine ⟨?_, ?_, ?_, ?_⟩
  · intro h
    simp [joinRoom, h]
  · intro room h hs
    simp [joinRoom, h, hs]
  · intro room h hs hl
    simp [joinRoom, h, hs, hl]
  · intro room h hs hl reason
    simp [joinRoom, h, hs, Nat.not_le.mpr hl]

/-- Witness: joining a started (non-full) room fails with "Game already
started" and changes nothing. -/
theorem joinRoom_error_cases_witness :
    joinRoom ⟨[("R1", ⟨"R1", [⟨"A", "Alice", true⟩], none, true⟩)], [("A", "R1")]⟩ "B" "R1" "Bob"
      = (⟨[("R1", ⟨"R1", [⟨"A", "Alice", true⟩], none, true⟩)], [("A", "R1")]⟩,
         [.unicast "B" (.error "Game already started")]) :=
  (joinRoom_error_cases _ "B" "R1" "Bob").2.1 ⟨"R1", [⟨"A", "Alice", true⟩], none, true⟩
    (by decide) rfl

/-- C3: a `joinRoom` that passes all three failure checks appends a new
`ready=false` player at the end of the room's list (preserving join order),
emits `roomJoined{roomCode, playerId}` to the requester only, and broadcasts
`playersUpdate` with the full current list to the room's broadcast group,
whose subscribers include the new joiner. -/
theorem joinRoom_appends (st : ServerState) (sid rc name : String) (room : Room)
    (h : mapGet st.gameRooms rc = some room) (hs : room.started = false)
    (hl : room.players.length < 5) :
    joinRoom st sid rc name =
      ({ gameRooms := (mapSet st.gameRooms rc
           { room with players := room.players ++ [{ id := sid, name := name, ready := false }] })
         subs := addSub st.subs sid rc },
       [.unicast sid (.roomJoined rc sid),
        .toRoom rc (.playersUpdate
          (room.players ++ [{ id := sid, name := name, ready := false }]))]) ∧
    mapGet (joinRoom st sid rc name).1.gameRooms rc =
      some { room with players := room.players ++ [{ id := sid, name := name, ready := false }] } ∧
    delivers (joinRoom st sid rc name).1.subs
      (.toRoom rc (.playersUpdate
        (room.players ++ [{ id := sid, name := name, ready := false }]))) sid := by
  have he : joinRoom st sid rc name =
      ({ gameRooms := (mapSet st.gameRooms rc
           { room with players := room.players ++ [{ id := sid, name := name, ready := false }] })
         subs := addSub st.subs sid rc },
       [.unicast sid (.roomJoined rc sid),
        .toRoom rc (.playersUpdate
          (room.players ++ [{ id := sid, name := name, ready := false }]))]) := by
    simp [joinRoom, h, hs, Nat.not_le.mpr hl]
  refine ⟨he, ?_, ?_⟩
  · rw [he]
    exact mapGet_mapSet_self ..
  · rw [he]
    exact mem_addSub_self ..

/-- Witness: Bob joining Alice's open room receives the `playersUpdate`
broadcast listing both players in join order. -/
theorem joinRoom_appends_witness :
    delivers
      (joinRoom ⟨[("R1", ⟨"R1", [⟨"A", "Alice", false⟩], none, false⟩)], [("A", "R1")]⟩
        "B" "R1" "Bob").1.subs
      (.toRoom "R1" (.playersUpdate ([⟨"A", "Alice", false⟩] ++ [⟨"B", "Bob", false⟩]))) "B" :=
  (joinRoom_appends _ "B" "R1" "Bob" ⟨"R1", [⟨"A", "Alice", false⟩], none, false⟩
    (by decide) rfl (by decide)).2.2

/-- C6: `playerReady` is a silent no-op — state unchanged, nothing emitted —
when the room is absent from the registry or the sender is not a player of
that room; otherwise exactly the first player entry carrying the sender's id
has its ready flag set to true, every other entry is unchanged, and
`playersUpdate` with the updated list is broadcast to the whole room. -/
theorem playerReady_spec (st : ServerState) (sid rc : String) :
    (mapGet st.gameRooms rc = none → playerReady st sid rc = (st, [])) ∧
    (∀ room, mapGet st.gameRooms rc = some room →
      room.players.any (fun p => p.id = sid) = false → playerReady st sid rc = (st, [])) ∧
    (∀ room, mapGet st.gameRooms rc = some room →
      room.players.any (fun p => p.id = sid) = true →
      ∃ room', mapGet (playerReady st sid rc).1.gameRooms rc = some room' ∧
        room'.players = setReadyFirst room.players sid ∧
        Emit.toRoom rc (.playersUpdate room'.players) ∈ (playerReady st sid rc).2 ∧
        (∀ j, room'.players[j]? =
          if room.players.findIdx? (fun p => p.id = sid) = some j then
            (room.players[j]?).map (fun p => { p with ready := true })
          else room.players[j]?)) := by
  refine ⟨?_, ?_, ?_⟩
  · intro h
    simp [playerReady, h]
  · intro room h hno
    simp [playerReady, h, hno]
  · intro room h hyes
    by_cases hc : 2 ≤ (setReadyFirst room.players sid).length ∧
        (setReadyFirst room.players sid).all (fun p => p.ready)
    · refine ⟨{ room with players := setReadyFirst room.players sid, started := true }, ?_, rfl,
        ?_, fun j => setReadyFirst_getElem? room.players sid j⟩
      · simp only [playerReady, h, hyes, if_pos hc]
        exact mapGet_mapSet_self ..
      · simp only [playerReady, h, hyes, if_pos hc]
        simp
    · refine ⟨{ room with players := setReadyFirst room.players sid }, ?_, rfl,
        ?_, fun j => setReadyFirst_getElem? room.players sid j⟩
      · simp only [playerReady, h, hyes, if_neg hc]
        exact mapGet_mapSet_self ..
      · simp only [playerReady, h, hyes, if_neg hc]
        simp

/-- Witness: a `playerReady` from a connection that is no player of the room
is a silent no-op. -/
theorem playerReady_spec_witness :
    playerReady ⟨[("R1", ⟨"R1", [⟨"A", "Alice", false⟩], none, false⟩)], [("A", "R1")]⟩ "B" "R1"
      = (⟨[("R1", ⟨"R1", [⟨"A", "Alice", false⟩], none, false⟩)], [("A", "R1")]⟩, []) :=
  (playerReady_spec _ "B" "R1").2.1 ⟨"R1", [⟨"A", "Alice", false⟩], none, false⟩
    (by decide) (by decide)

/-- C1 counterexample: in this five-event trace the identical `gameStart`
broadcast for room "R1" is emitted twice — after the fourth event the room's
`started` flag is already true, and the fifth event, a repeated `playerReady`,
makes the handler re-check the start condition (`server.js:88` has no
`started` guard) and re-emit `gameStart`, contradicting the claim's
at-most-once part. -/
theorem gameStart_reemitted :
    ((runTrace initState
        [.createRoom "A" "Alice" "R1", .joinRoom "B" "R1" "Bob",
         .playerReady "A" "R1", .playerReady "B" "R1", .playerReady "A" "R1"]).2.count
      (Emit.toRoom "R1"
        (.gameStart [⟨"A", "Alice", true⟩, ⟨"B", "Bob", true⟩]))) = 2 := by
  decide

/-- C1 amended: `gameStart` is broadcast iff, immediately after a
`playerReady` transition, the room has at least 2 players and every player's
ready flag is true — with no guard on `started`, so a later `playerReady` for
an already-started room that still satisfies the condition re-emits
`gameStart` (it is not emitted at most once per room). -/
theorem playerReady_gameStart_iff (st : ServerState) (sid rc : String) :
    (∃ ps, Emit.toRoom rc (.gameStart ps) ∈ (playerReady st sid rc).2) ↔
    (∃ room, mapGet st.gameRooms rc = some room ∧
      room.players.any (fun p => p.id = sid) = true ∧
      2 ≤ (setReadyFirst room.players sid).length ∧
      (setReadyFirst room.players sid).all (fun p => p.ready) = true) := by
  constructor
  · rintro ⟨ps, hmem⟩
    cases hg : mapGet st.gameRooms rc with
    | none => simp [playerReady, hg] at hmem
    | some room =>
      by_cases hyes : room.players.any (fun p => p.id = sid)
      · by_cases hc : 2 ≤ (setReadyFirst room.players sid).length ∧
            (setReadyFirst room.players sid).all (fun p => p.ready) = true
        · exact ⟨room, rfl, hyes, hc.1, hc.2⟩
        · rw [playerReady, hg] at hmem
          simp only [hyes, if_true, if_neg hc] at hmem
          simp at hmem
      · simp [playerReady, hg, hyes] at hmem
  · rintro ⟨room, hg, hyes, h2, hall⟩
    refine ⟨setReadyFirst room.players sid, ?_⟩
    rw [playerReady, hg]
    simp only [hyes, if_true, if_pos (And.intro h2 hall)]
    simp

/-- C7: `playerAction` performs no room lookup and no registry mutation: for
every inbound message it leaves the state untouched and broadcasts
`playerAction{playerId, action, data}` to every connection subscribed to the
room code — the sender included when subscribed — even when no room with that
code exists in the registry. -/
theorem playerAction_relays (st : ServerState) (sid rc : String) (a d : Nat) :
    playerAction st sid rc a d = (st, [.toRoom rc (.playerAction sid a d)]) ∧
    ((sid, rc) ∈ st.subs → delivers st.subs (.toRoom rc (.playerAction sid a d)) sid) ∧
    (mapGet st.gameRooms rc = none →
      playerAction st sid rc a d = (st, [.toRoom rc (.playerAction sid a d)])) :=
  ⟨rfl, fun h => h, fun _ => rfl⟩

/-- Witness: with an empty registry (room code unknown) the relay still
broadcasts, and the subscribed sender is among the recipients. -/
theorem playerAction_relays_witness :
    playerAction ⟨[], [("A", "R1")]⟩ "A" "R1" 3 7
      = (⟨[], [("A", "R1")]⟩, [.toRoom "R1" (.playerAction "A" 3 7)]) ∧
    delivers [("A", "R1")] (.toRoom "R1" (.playerAction "A" 3 7)) "A" :=
  ⟨(playerAction_relays ⟨[], [("A", "R1")]⟩ "A" "R1" 3 7).1,
   (playerAction_relays ⟨[], [("A", "R1")]⟩ "A" "R1" 3 7).2.1 (by decide)⟩

/-- C9: `gameStateUpdate` performs no sender-membership check: for every live
room and every sender — also one that is no player of the room — the payload
overwrites `room.gameState` and `gameStateChanged` is broadcast to the room's
subscribers excluding the sender; only an unknown room code makes the message
a no-op. -/
theorem gameStateUpdate_spec (st : ServerState) (sid rc : String) (gs : Nat) :
    (mapGet st.gameRooms rc = none → gameStateUpdate st sid rc gs = (st, [])) ∧
    (∀ room, mapGet st.gameRooms rc = some room →
      gameStateUpdate st sid rc gs =
        ({ st with gameRooms := (mapSet st.gameRooms rc { room with gameState := some gs }) },
         [.toRoomExcept rc sid (.gameStateChanged gs)]) ∧
      mapGet (gameStateUpdate st sid rc gs).1.gameRooms rc =
        some { room with gameState := some gs } ∧
      ¬ delivers st.subs (.toRoomExcept rc sid (.gameStateChanged gs)) sid ∧
      (∀ s, (s, rc) ∈ st.subs → s ≠ sid →
        delivers st.subs (.toRoomExcept rc sid (.gameStateChanged gs)) s)) := by
  constructor
  · intro h
    simp [gameStateUpdate, h]
  · intro room h
    have he : gameStateUpdate st sid rc gs =
        ({ st with gameRooms := (mapSet st.gameRooms rc { room with gameState := some gs }) },
         [.toRoomExcept rc sid (.gameStateChanged gs)]) := by
      simp [gameStateUpdate, h]
    refine ⟨he, ?_, ?_, ?_⟩
    · rw [he]
      exact mapGet_mapSet_self ..
    · intro hd
      exact hd.2 rfl
    · intro s hs hne
      exact ⟨hs, hne⟩

/-- Witness: sender "Z", not a player of room "R1", still overwrites its
game state. -/
theorem gameStateUpdate_spec_witness :
    mapGet
      (gameStateUpdate ⟨[("R1", ⟨"R1", [⟨"A", "Alice", false⟩], none, false⟩)], [("A", "R1")]⟩
        "Z" "R1" 42).1.gameRooms "R1"
      = some ⟨"R1", [⟨"A", "Alice", false⟩], some 42, false⟩ :=
  ((gameStateUpdate_spec _ "Z" "R1" 42).2 ⟨"R1", [⟨"A", "Alice", false⟩], none, false⟩
    (by decide)).2.1

/-- C8 counterexample: when the random source yields 0 — a possible
`Math.random()` value, represented by numerator 0 — the generated room code
is the empty string, not a 6-character code. -/
theorem generateRoomCode_not_six :
    generateRoomCode 0 = "" ∧ (generateRoomCode 0).length ≠ 6 := by
  decide

/-- C8 amended: for every possible value of the random source the generated
code has at most 6 characters, each drawn from the upper-case alphanumeric
alphabet, and it has exactly 6 characters whenever the value's base-36
expansion carries at least 6 fractional digits; shorter codes occur exactly
when the expansion terminates early (e.g. the empty code for 0). -/
theorem generateRoomCode_shape (k : Nat) (_h : k < 2 ^ 52) :
    (generateRoomCode k).length ≤ 6 ∧
    (∀ c ∈ (generateRoomCode k).toList, c ∈ upperAlphanum) ∧
    (6 ≤ (jsFracDigits 20 k).length → (generateRoomCode k).length = 6) := by
  refine ⟨?_, ?_, ?_⟩
  · show ((((jsToString36 k).drop 2).take 6).map Char.toUpper).length ≤ 6
    rw [List.length_map, List.length_take]
    exact min_le_left ..
  · intro c hc
    have hc' : c ∈ (((jsToString36 k).drop 2).take 6).map Char.toUpper := hc
    rcases List.mem_map.mp hc' with ⟨c0, hc0, rfl⟩
    have hc1 : c0 ∈ (jsToString36 k).drop 2 := List.mem_of_mem_take hc0
    have hc2 : c0 ∈ jsFracDigits 20 k := by
      unfold jsToString36 at hc1
      split at hc1
      · simp at hc1
      · simpa using hc1
    exact toUpper_base36_mem c0 (jsFracDigits_mem 20 k c0 hc2)
  · intro hlen
    show ((((jsToString36 k).drop 2).take 6).map Char.toUpper).length = 6
    have hk : k ≠ 0 := by
      intro h0
      rw [h0] at hlen
      simp [jsFracDigits] at hlen
    rw [List.length_map, List.length_take]
    unfold jsToString36
    rw [if_neg hk]
    simpa using hlen

/-- Witness: numerator 1 yields the 6-character code "000000". -/
theorem generateRoomCode_shape_witness :
    (generateRoomCode 1).length ≤ 6 ∧
    (∀ c ∈ (generateRoomCode 1).toList, c ∈ upperAlphanum) ∧
    (6 ≤ (jsFracDigits 20 1).length → (generateRoomCode 1).length = 6) :=
  generateRoomCode_shape 1 (by decide)

/-- C5: in every server state reachable by any sequence of `createRoom`,
`joinRoom`, `playerReady`, `gameStateUpdate`, `playerAction` and `disconnect`
events, every room's player list has length at most 5. -/
theorem rooms_capacity (st : ServerState) (h : Reachable st) :
    ∀ rc room, mapGet st.gameRooms rc = some room → room.players.length ≤ 5 := by
  have hb : roomsBounded st.gameRooms := by
    induction h with
    | init =>
      intro pr hpr
      simp [initState] at hpr
    | next st e _ ih => exact step_bounded st e ih
  intro rc room hg
  exact hb (rc, room) (mapGet_mem _ _ _ hg)

/-- Witness: the room created by one `createRoom` event from the initial
state is within capacity. -/
theorem rooms_capacity_witness :
    (⟨"R1", [⟨"A", "Alice", false⟩], none, false⟩ : Room).players.length ≤ 5 :=
  rooms_capacity (step initState (.createRoom "A" "Alice" "R1")).1
    (Reachable.next initState (.createRoom "A" "Alice" "R1") Reachable.init)
    "R1" ⟨"R1", [⟨"A", "Alice", false⟩], none, false⟩ (by decide)

/-- C4: on disconnect, every room containing the leaving connection as a
player has the first matching entry removed by index, the order of the
remaining players preserved; if removal empties the room, the room disappears
from the registry (lookup finds nothing), otherwise `playersUpdate` with the
updated list and `playerDisconnected` with the leaving id are broadcast to
the room; a connection that is a player in no room produces no state change
and no emission. -/
theorem disconnect_spec (st : ServerState) (sid : String)
    (hnd : (st.gameRooms.map Prod.fst).Nodup) :
    (∀ rc room, mapGet st.gameRooms rc = some room →
      (room.players.findIdx? (fun p => p.id = sid) = none →
        mapGet (disconnect st sid).1.gameRooms rc = some room) ∧
      (∀ i, room.players.findIdx? (fun p => p.id = sid) = some i →
        (room.players.eraseIdx i = [] →
          mapGet (disconnect st sid).1.gameRooms rc = none) ∧
        (room.players.eraseIdx i ≠ [] →
          mapGet (disconnect st sid).1.gameRooms rc =
            some { room with players := room.players.eraseIdx i } ∧
          Emit.toRoom rc (.playersUpdate (room.players.eraseIdx i)) ∈ (disconnect st sid).2 ∧
          Emit.toRoom rc (.playerDisconnected sid) ∈ (disconnect st sid).2))) ∧
    ((∀ pr ∈ st.gameRooms, pr.2.players.findIdx? (fun p => p.id = sid) = none) →
      disconnect st sid = (st, [])) := by
  constructor
  · intro rc room hg
    constructor
    · intro hno
      have := mapGet_disconnectRooms sid st.gameRooms hnd rc room hg
      rw [disconnectRoomOne_no_match sid rc room hno] at this
      exact this
    · intro i hi
      constructor
      · intro hnil
        have := mapGet_disconnectRooms sid st.gameRooms hnd rc room hg
        rw [disconnectRoomOne_last sid rc room i hi hnil] at this
        exact this
      · intro hne
        refine ⟨?_, ?_, ?_⟩
        · have := mapGet_disconnectRooms sid st.gameRooms hnd rc room hg
          rw [disconnectRoomOne_removes sid rc room i hi hne] at this
          exact this
        · have := disconnectRooms_emits sid st.gameRooms rc room hg
          rw [disconnectRoomOne_removes sid rc room i hi hne] at this
          exact this _ (by simp)
        · have := disconnectRooms_emits sid st.gameRooms rc room hg
          rw [disconnectRoomOne_removes sid rc room i hi hne] at this
          exact this _ (by simp)
  · intro hall
    show ({ st with gameRooms := (disconnectRooms sid st.gameRooms).1 },
        (disconnectRooms sid st.gameRooms).2) = (st, [])
    rw [disconnectRooms_noop sid st.gameRooms hall]

/-- Witness: Alice disconnecting from a two-player room leaves exactly Bob,
in place. -/
theorem disconnect_spec_witness :
    mapGet
      (disconnect
        ⟨[("R1", ⟨"R1", [⟨"A", "Alice", true⟩, ⟨"B", "Bob", false⟩], none, false⟩)],
         [("A", "R1"), ("B", "R1")]⟩ "A").1.gameRooms "R1"
      = some ⟨"R1", [⟨"B", "Bob", false⟩], none, false⟩ :=
  (((disconnect_spec
      ⟨[("R1", ⟨"R1", [⟨"A", "Alice", true⟩, ⟨"B", "Bob", false⟩], none, false⟩)],
       [("A", "R1"), ("B", "R1")]⟩ "A" (by decide)).1
    "R1" ⟨"R1", [⟨"A", "Alice", true⟩, ⟨"B", "Bob", false⟩], none, false⟩ (by decide)).2
    0 (by decide)).2 (by decide) |>.1

/-- C10: a ready flag is never reset — across any single event from a
reachable state, a surviving room's player list changes only by staying
intact, appending one `ready=false` player, applying `setReadyFirst`,
removing one entry, or being replaced by a fresh single `ready=false`
creator (code-collision overwrite); and `setReadyFirst`, the only write to
the flag, maps an entry whose flag is already true to itself, so a ready
player stays ready until removed. -/
theorem ready_not_reset (st : ServerState) (h : Reachable st) (e : Event)
    (rc : String) (room room' : Room)
    (hb : mapGet st.gameRooms rc = some room)
    (ha : mapGet (step st e).1.gameRooms rc = some room') :
    (room'.players = room.players ∨
     (∃ sid name, room'.players = room.players ++ [⟨sid, name, false⟩]) ∨
     (∃ sid, room'.players = setReadyFirst room.players sid) ∨
     (∃ i, room'.players = room.players.eraseIdx i) ∨
     (∃ sid name, room'.players = [⟨sid, name, false⟩])) ∧
    (∀ (sid : String) (j : Nat) (p : Player), room.players[j]? = some p → p.ready = true →
      (setReadyFirst room.players sid)[j]? = some p) := by
  refine ⟨?_, fun sid j p hj hr => setReadyFirst_preserves_true room.players sid j p hj hr⟩
  cases e with
  | createRoom sid name rc' =>
    by_cases hk : rc = rc'
    · subst hk
      rw [show (step st (.createRoom sid name rc)).1.gameRooms =
          mapSet st.gameRooms rc
            ({ code := rc, players := [{ id := sid, name := name, ready := false }],
               gameState := none, started := false }) from rfl,
        mapGet_mapSet_self] at ha
      rw [(Option.some_injective _ ha).symm]
      exact Or.inr (Or.inr (Or.inr (Or.inr ⟨sid, name, rfl⟩)))
    · rw [show (step st (.createRoom sid name rc')).1.gameRooms =
          mapSet st.gameRooms rc'
            ({ code := rc', players := [{ id := sid, name := name, ready := false }],
               gameState := none, started := false }) from rfl,
        mapGet_mapSet_ne _ _ _ _ hk, hb] at ha
      rw [(Option.some_injective _ ha).symm]
      exact Or.inl rfl
  | joinRoom sid rc' name =>
    cases hg : mapGet st.gameRooms rc' with
    | none =>
      rw [show (step st (.joinRoom sid rc' name)).1.gameRooms = st.gameRooms by
        simp [step, joinRoom, hg]] at ha
      rw [hb] at ha
      rw [(Option.some_injective _ ha).symm]
      exact Or.inl rfl
    | some room0 =>
      by_cases hs : room0.started
      · rw [show (step st (.joinRoom sid rc' name)).1.gameRooms = st.gameRooms by
          simp [step, joinRoom, hg, hs]] at ha
        rw [hb] at ha
        rw [(Option.some_injective _ ha).symm]
        exact Or.inl rfl
      · by_cases hl : 5 ≤ room0.players.length
        · rw [show (step st (.joinRoom sid rc' name)).1.gameRooms = st.gameRooms by
            simp [step, joinRoom, hg, hs, hl]] at ha
          rw [hb] at ha
          rw [(Option.some_injective _ ha).symm]
          exact Or.inl rfl
        · rw [show (step st (.joinRoom sid rc' name)).1.gameRooms =
              mapSet st.gameRooms rc'
                ({ room0 with players :=
                    room0.players ++ [{ id := sid, name := name, ready := false }] }) by
            simp [step, joinRoom, hg, hs, hl]] at ha
          by_cases hk : rc = rc'
          · subst hk
            rw [mapGet_mapSet_self] at ha
            have hr0 : room0 = room := by
              rw [hg] at hb
              exact Option.some_injective _ hb
            subst hr0
            rw [(Option.some_injective _ ha).symm]
            exact Or.inr (Or.inl ⟨sid, name, rfl⟩)
          · rw [mapGet_mapSet_ne _ _ _ _ hk, hb] at ha
            rw [(Option.some_injective _ ha).symm]
            exact Or.inl rfl
  | playerReady sid rc' =>
    cases hg : mapGet st.gameRooms rc' with
    | none =>
      rw [show (step st (.playerReady sid rc')).1.gameRooms = st.gameRooms by
        simp [step, playerReady, hg]] at ha
      rw [hb] at ha
      rw [(Option.some_injective _ ha).symm]
      exact Or.inl rfl
    | some room0 =>
      by_cases hyes : room0.players.any (fun p => p.id = sid)
      · by_cases hc : 2 ≤ (setReadyFirst room0.players sid).length ∧
            (setReadyFirst room0.players sid).all (fun p => p.ready) = true
        · rw [show (step st (.playerReady sid rc')).1.gameRooms =
              mapSet st.gameRooms rc'
                ({ room0 with players := setReadyFirst room0.players sid, started := true }) by
            simp only [step, playerReady, hg, hyes, if_true, if_pos hc]] at ha
          by_cases hk : rc = rc'
          · subst hk
            rw [mapGet_mapSet_self] at ha
            have hr0 : room0 = room := by
              rw [hg] at hb
              exact Option.some_injective _ hb
            subst hr0
            rw [(Option.some_injective _ ha).symm]
            exact Or.inr (Or.inr (Or.inl ⟨sid, rfl⟩))
          · rw [mapGet_mapSet_ne _ _ _ _ hk, hb] at ha
            rw [(Option.some_injective _ ha).symm]
            exact Or.inl rfl
        · rw [show (step st (.playerReady sid rc')).1.gameRooms =
              mapSet st.gameRooms rc'
                ({ room0 with players := setReadyFirst room0.players sid }) by
            simp only [step, playerReady, hg, hyes, if_true, if_neg hc]] at ha
          by_cases hk : rc = rc'
          · subst hk
            rw [mapGet_mapSet_self] at ha
            have hr0 : room0 = room := by
              rw [hg] at hb
              exact Option.some_injective _ hb
            subst hr0
            rw [(Option.some_injective _ ha).symm]
            exact Or.inr (Or.inr (Or.inl ⟨sid, rfl⟩))
          · rw [mapGet_mapSet_ne _ _ _ _ hk, hb] at ha
            rw [(Option.some_injective _ ha).symm]
            exact Or.inl rfl
      · rw [show (step st (.playerReady sid rc')).1.gameRooms = st.gameRooms by
          simp [step, playerReady, hg, hyes]] at ha
        rw [hb] at ha
        rw [(Option.some_injective _ ha).symm]
        exact Or.inl rfl
  | gameStateUpdate sid rc' gs =>
    cases hg : mapGet st.gameRooms rc' with
    | none =>
      rw [show (step st (.gameStateUpdate sid rc' gs)).1.gameRooms = st.gameRooms by
        simp [step, gameStateUpdate, hg]] at ha
      rw [hb] at ha
      rw [(Option.some_injective _ ha).symm]
      exact Or.inl rfl
    | some room0 =>
      rw [show (step st (.gameStateUpdate sid rc' gs)).1.gameRooms =
          mapSet st.gameRooms rc' ({ room0 with gameState := some gs }) by
        simp [step, gameStateUpdate, hg]] at ha
      by_cases hk : rc = rc'
      · subst hk
        rw [mapGet_mapSet_self] at ha
        have hr0 : room0 = room := by
          rw [hg] at hb
          exact Option.some_injective _ hb
        subst hr0
        rw [(Option.some_injective _ ha).symm]
        exact Or.inl rfl
      · rw [mapGet_mapSet_ne _ _ _ _ hk, hb] at ha
        rw [(Option.some_injective _ ha).symm]
        exact Or.inl rfl
  | playerAction sid rc' a d =>
    rw [show (step st (.playerAction sid rc' a d)).1.gameRooms = st.gameRooms from rfl,
      hb] at ha
    rw [(Option.some_injective _ ha).symm]
    exact Or.inl rfl
  | disconnect sid =>
    have hnd : keysNodup st.gameRooms := reachable_keysNodup st h
    have hget := mapGet_disconnectRooms sid st.gameRooms hnd rc room hb
    rw [show (step st (.disconnect sid)).1.gameRooms =
        (disconnectRooms sid st.gameRooms).1 from rfl] at ha
    rw [ha] at hget
    rcases disconnectRoomOne_players sid rc room room' hget.symm with h1 | ⟨i, h1⟩
    · exact Or.inl h1
    · exact Or.inr (Or.inr (Or.inr (Or.inl ⟨i, h1⟩)))

/-- Witness: after a reachable lobby reaches state [Alice ready, Bob not],
Bob's ready transition leaves Alice's entry untouched. -/
theorem ready_not_reset_witness :
    (setReadyFirst [⟨"A", "Alice", true⟩, ⟨"B", "Bob", false⟩] "B")[0]?
      = some ⟨"A", "Alice", true⟩ :=
  (ready_not_reset
    (step (step (step initState (.createRoom "A" "Alice" "R1")).1
      (.joinRoom "B" "R1" "Bob")).1 (.playerReady "A" "R1")).1
    (Reachable.next _ (.playerReady "A" "R1")
      (Reachable.next _ (.joinRoom "B" "R1" "Bob")
        (Reachable.next _ (.createRoom "A" "Alice" "R1") Reachable.init)))
    (.playerReady "B" "R1") "R1"
    ⟨"R1", [⟨"A", "Alice", true⟩, ⟨"B", "Bob", false⟩], none, false⟩
    ⟨"R1", [⟨"A", "Alice", true⟩, ⟨"B", "Bob", true⟩], none, true⟩
    (by decide) (by decide)).2 "B" 0 ⟨"A", "Alice", true⟩ (by decide) rfl
